import Mathlib

/-!
Verification development for the simple_dr_meter repository
(src/main.py and src/audio_io/audio_io.py).

The Python source is shallowly embedded: pure functions become Lean
functions, the CUE state machine becomes a fold over an explicit state
record, the decode byte stream becomes an explicit remaining-byte count,
and fallible code returns Except.  Python integers are Int, exact
Fraction arithmetic is Rat, and machine floats never enter the claims
that are settled here (all numeric claims are about exact integer or
rational rules).
-/

/-- Python round() / numpy.round(): round half to even (banker's rounding),
on an exact rational value. -/
def pyRound (q : ℚ) : ℤ :=
  let f := ⌊q⌋
  let r := q - (f : ℚ)
  if r < 1/2 then f
  else if (1:ℚ)/2 < r then f + 1
  else if f % 2 = 0 then f else f + 1

/-- Python int() applied to an exact rational (fractions.Fraction):
truncation toward zero. -/
def pyInt (q : ℚ) : ℤ :=
  if 0 ≤ q then ⌊q⌋ else ⌈q⌉

/-- Evaluation helper: pyRound at a value strictly below the halfway point. -/
theorem pyRound_of_lt_half (q : ℚ) (f : ℤ) (h1 : (f:ℚ) ≤ q)
    (h2 : q - (f:ℚ) < 1/2) : pyRound q = f := by
  have hfl : ⌊q⌋ = f := by
    rw [Int.floor_eq_iff]
    constructor
    · exact h1
    · linarith
  simp only [pyRound, hfl]
  rw [if_pos h2]

/-- Evaluation helper: pyRound at a value strictly above the halfway point. -/
theorem pyRound_of_half_lt (q : ℚ) (f : ℤ) (h1 : (1:ℚ)/2 < q - (f:ℚ))
    (h2 : q < (f:ℚ) + 1) : pyRound q = f + 1 := by
  have hfl : ⌊q⌋ = f := by
    rw [Int.floor_eq_iff]
    constructor
    · linarith
    · linarith
  simp only [pyRound, hfl]
  rw [if_neg (by linarith), if_pos h1]

/-- Evaluation helper: pyRound of an integer is that integer. -/
theorem pyRound_intCast (z : ℤ) : pyRound (z : ℚ) = z := by
  apply pyRound_of_lt_half
  · exact le_refl _
  · norm_num

/-- Evaluation helper: pyInt on a non-negative value is the floor. -/
theorem pyInt_of_bounds (q : ℚ) (f : ℤ) (h0 : 0 ≤ q) (h1 : (f:ℚ) ≤ q)
    (h2 : q < (f:ℚ) + 1) : pyInt q = f := by
  have hfl : ⌊q⌋ = f := by
    rw [Int.floor_eq_iff]
    exact ⟨h1, by linarith⟩
  simp only [pyInt, hfl]
  rw [if_pos h0]

/-! ## Concurrency scheduler sizing (src/main.py, analyze_dr, lines 156-167) -/

/-- From main.py line 164: threads_outer = max(1, min(num_files, cpu_count)). -/
def threads_outer (num_files cpu_count : ℕ) : ℕ :=
  max 1 (min num_files cpu_count)

/-- From main.py line 165: threads_inner = cpu_count // threads_outer
(Python floor division on non-negative ints is Nat division). -/
def threads_inner (num_files cpu_count : ℕ) : ℕ :=
  cpu_count / threads_outer num_files cpu_count

/-! ## Probe validation (src/audio_io/audio_io.py, _get_audio_properties,
lines 234-239)

The external ffprobe call (_get_params) is the out-of-scope collaborator;
_get_audio_properties receives the pair it reported.  sys.exit is modelled
as Except.error, which aborts the whole run. -/

/-- From audio_io.py lines 234-239: reject channel_count < 1 or
sample_rate < 8000 with a fatal sys.exit, otherwise return the pair
unchanged. -/
def _get_audio_properties (channel_count sample_rate : ℤ) :
    Except String (ℤ × ℤ) :=
  if channel_count < 1 ∨ sample_rate < 8000 then
    .error "invalid format"
  else
    .ok (channel_count, sample_rate)

/-- C9: for every number of audio sources N ≥ 1 and CPU parallelism P ≥ 1,
the pools are sized outer = max(1, min(N, P)), inner = floor(P / outer),
and inner is always at least 1. -/
theorem c9_pool_sizing (N P : ℕ) (_hN : 1 ≤ N) (hP : 1 ≤ P) :
    threads_outer N P = max 1 (min N P) ∧
    threads_inner N P = P / threads_outer N P ∧
    1 ≤ threads_inner N P := by
  refine ⟨rfl, rfl, ?_⟩
  have houter_pos : 0 < threads_outer N P := by
    simp [threads_outer]
  have houter_le : threads_outer N P ≤ P := by
    simp only [threads_outer, max_le_iff]
    exact ⟨hP, min_le_right _ _⟩
  rw [threads_inner, Nat.one_le_div_iff houter_pos]
  exact houter_le

/-- Witness for c9_pool_sizing at N = 3, P = 8. -/
theorem c9_pool_sizing_witness :
    threads_outer 3 8 = max 1 (min 3 8) ∧
    threads_inner 3 8 = 8 / threads_outer 3 8 ∧
    1 ≤ threads_inner 3 8 :=
  c9_pool_sizing 3 8 (by decide) (by decide)

/-- C7: the resolver fails (fatally, via sys.exit) if and only if the probed
file reports channel_count < 1 or sample_rate < 8000; otherwise the
reported pair is returned unchanged. -/
theorem c7_invalid_format (cc sr : ℤ) :
    ((∃ e, _get_audio_properties cc sr = .error e) ↔ (cc < 1 ∨ sr < 8000)) ∧
    (¬(cc < 1 ∨ sr < 8000) → _get_audio_properties cc sr = .ok (cc, sr)) := by
  constructor
  · constructor
    · intro ⟨e, he⟩
      by_contra hbad
      simp only [_get_audio_properties, if_neg hbad] at he
      exact Except.noConfusion he
    · intro hbad
      exact ⟨"invalid format", by simp [_get_audio_properties, if_pos hbad]⟩
  · intro hok
    simp [_get_audio_properties, if_neg hok]

/-! ## Result aggregation (src/main.py, process_results / analyze_dr,
lines 178-214)

compute_dr lives in the audio_metrics package, which is outside src/; the
aggregation below therefore takes the per-track DRMetrics values as given
input, exactly as process_results receives them. -/

/-- DRMetrics as consumed by process_results: dr may be absent (None),
peak/rms are numbers, sample_count counts decoded samples of the track. -/
structure DRMetrics where
  dr : Option ℚ
  peak : ℚ
  rms : ℚ
  sample_count : ℕ
deriving DecidableEq

/-- Modelled from the spec: TrackInfo in src/audio_io/audio_io.py (lines
71-73) has only name and offset_samples, yet src/main.py reads
track_info.global_index (lines 125 and 196).  The spec says global_index
is an integer ≥ 1 assigned in discovery order.  This main.py-side record
carries the field main.py requires; the mismatch itself is settled under
claim C5. -/
structure MTrackInfo where
  global_index : ℤ
  name : String
  offset_samples : ℤ
deriving DecidableEq

/-- Modelled from the spec: util/constants.py is not under src/.  The spec
fixes measurement blocks at about 3 seconds (main.py reads blocks of
3 * MEASURE_SAMPLE_RATE samples) at the DR standard measurement rate of
44100 Hz. -/
def MEASURE_SAMPLE_RATE : ℕ := 44100

/-- Python format spec {n:02d}: pad to width 2 with leading zeros. -/
def pyFormat02d (n : ℤ) : String :=
  if 0 ≤ n ∧ n < 10 then "0" ++ toString n else toString n

/-- One row of dr_log_subitems (main.py lines 194-196):
(dr, peak, rms, duration_seconds, track label). -/
abbrev LogRow := Option ℚ × ℚ × ℚ × ℤ × String

/-- From main.py lines 186-196, the rows appended to dr_log_subitems:
duration_seconds = round(sample_count / MEASURE_SAMPLE_RATE) against the
fixed measurement rate, never the source sample rate, and the label is
built from global_index and name. -/
def process_results_rows (tracks : List (MTrackInfo × DRMetrics)) :
    List LogRow :=
  tracks.map fun tm =>
    (tm.2.dr, tm.2.peak, tm.2.rms,
     pyRound ((tm.2.sample_count : ℚ) / (MEASURE_SAMPLE_RATE : ℚ)),
     pyFormat02d tm.1.global_index ++ "-" ++ tm.1.name)

/-- From main.py lines 186-191: the dr values appended to dr_items.  The
guard is Python truthiness (`if dr:`), which drops None and also drops a
present dr equal to 0. -/
def process_results_dr_items (tracks : List (MTrackInfo × DRMetrics)) :
    List ℚ :=
  tracks.filterMap fun tm =>
    match tm.2.dr with
    | some v => if v = 0 then none else some v
    | none => none

/-- dr_items accumulated across all sources (outer loop of analyze_dr);
the mean is order-independent, so source completion order is irrelevant. -/
def dr_items_of (parts : List (List (MTrackInfo × DRMetrics))) : List ℚ :=
  (parts.map process_results_dr_items).flatten

/-- From main.py lines 207-211 with keep_precision = False:
dr_mean_rounded = int(numpy.round(numpy.mean(dr_items))); numpy.round
rounds half to even and numpy.mean of an empty list is nan (modelled as
none). -/
def official_dr (parts : List (List (MTrackInfo × DRMetrics))) : Option ℤ :=
  let items := dr_items_of parts
  if items.isEmpty then none
  else some (pyRound (items.sum / (items.length : ℚ)))

/-- Stated from the spec's words for comparison: the multiset of all track
dr values that are not absent (present dr of 0 included). -/
def presentDrs (parts : List (List (MTrackInfo × DRMetrics))) : List ℚ :=
  (parts.map (fun part => part.filterMap (fun tm => tm.2.dr))).flatten

/-- Mean of a list of rationals. -/
def meanQ (l : List ℚ) : ℚ := l.sum / (l.length : ℚ)

/-- Per-part bridge: the dr_items appended by process_results are exactly
the non-absent dr values with the zero values dropped. -/
theorem process_results_dr_items_eq_filter
    (part : List (MTrackInfo × DRMetrics)) :
    process_results_dr_items part =
      (part.filterMap (fun tm => tm.2.dr)).filter (fun v => v ≠ 0) := by
  induction part with
  | nil => rfl
  | cons tm rest ih =>
    simp only [process_results_dr_items, List.filterMap_cons] at ih ⊢
    cases h : tm.2.dr with
    | none => simpa using ih
    | some v =>
      by_cases hv : v = 0
      · subst hv
        simpa using ih
      · simp only [if_neg hv, List.filter_cons]
        simp only [ne_eq, hv, not_false_eq_true, decide_True, if_true]
        simpa using ih

/-- Run-level bridge: dr_items across the run equals the non-absent dr
values across the run with zeros dropped. -/
theorem dr_items_of_eq_filter (parts : List (List (MTrackInfo × DRMetrics))) :
    dr_items_of parts = (presentDrs parts).filter (fun v => v ≠ 0) := by
  induction parts with
  | nil => rfl
  | cons part rest ih =>
    simp only [dr_items_of, presentDrs, List.map_cons, List.flatten_cons,
      List.filter_append] at ih ⊢
    rw [process_results_dr_items_eq_filter, ih]

/-- Concrete run for the C1 counterexample: one source, three analyzed
tracks with present dr values 0, 0 and 7. -/
def c1ExParts : List (List (MTrackInfo × DRMetrics)) :=
  [[(⟨1, "a", 0⟩, ⟨some 0, 0, 0, 44100⟩),
    (⟨2, "b", 0⟩, ⟨some 0, 0, 0, 44100⟩),
    (⟨3, "c", 0⟩, ⟨some 7, 0, 0, 44100⟩)]]

/-- C1 counterexample: with present dr values [0, 0, 7] the code returns
official DR 7 (the zero values are dropped by `if dr:`), while the claim's
round(mean of all non-absent dr values) = round(7/3) = 2. -/
theorem c1_zero_dr_excluded_cex :
    official_dr c1ExParts = some 7 ∧
    pyRound (meanQ (presentDrs c1ExParts)) = 2 ∧ (7 : ℤ) ≠ 2 := by
  refine ⟨?_, ?_, by decide⟩
  · have hitems : dr_items_of c1ExParts = [7] := by
      simp +decide [dr_items_of, process_results_dr_items, c1ExParts,
        List.filterMap_cons]
    rw [official_dr]
    simp only [hitems]
    rw [if_neg (by decide)]
    have h7 : ((7 : ℚ)) = ((7 : ℤ) : ℚ) := by norm_num
    simp only [List.sum_cons, List.sum_nil, add_zero, List.length_cons,
      List.length_nil]
    norm_num
    rw [h7, pyRound_intCast]
  · have hp : presentDrs c1ExParts = [0, 0, 7] := by
      simp [presentDrs, c1ExParts, List.filterMap_cons]
    rw [hp]
    have hm : meanQ [0, 0, 7] = 7/3 := by
      simp [meanQ]
    rw [hm]
    have := pyRound_of_lt_half (7/3) 2 (by norm_num) (by norm_num)
    exact this

/-- C1 amended: when at least one analyzed track has a dr value that is
present and nonzero, the official DR is the half-to-even rounding of the
mean of exactly those dr values that are present and nonzero — a present
dr of 0 is excluded from the mean by the Python truthiness test
`if dr:`. -/
theorem c1_official_dr_amended (parts : List (List (MTrackInfo × DRMetrics)))
    (h : (presentDrs parts).filter (fun v => v ≠ 0) ≠ []) :
    official_dr parts =
      some (pyRound (meanQ ((presentDrs parts).filter (fun v => v ≠ 0)))) := by
  rw [official_dr]
  simp only [dr_items_of_eq_filter]
  rw [if_neg (by simpa [List.isEmpty_iff] using h)]
  rfl

/-- Concrete run for the C1 amended witness: dr values 3, absent, 4. -/
def c1WParts : List (List (MTrackInfo × DRMetrics)) :=
  [[(⟨1, "a", 0⟩, ⟨some 3, 0, 0, 44100⟩),
    (⟨2, "b", 0⟩, ⟨none, 0, 0, 44100⟩),
    (⟨3, "c", 0⟩, ⟨some 4, 0, 0, 44100⟩)]]

/-- Witness for c1_official_dr_amended on a run with dr values
[3, absent, 4]. -/
theorem c1_official_dr_amended_witness :
    (presentDrs c1WParts).filter (fun v => v ≠ 0) ≠ [] ∧
    official_dr c1WParts =
      some (pyRound (meanQ ((presentDrs c1WParts).filter (fun v => v ≠ 0)))) :=
  ⟨by decide, c1_official_dr_amended c1WParts (by decide)⟩

/-- C10: every log row's duration_seconds is round(sample_count /
MEASURE_SAMPLE_RATE) with the fixed measurement constant (the source's
own sample rate does not enter process_results at all), and for a source
with a different sample rate (88200 Hz, here one track of 88200 samples,
i.e. exactly 1 real second) the logged duration (2 s) differs from the
track's real duration. -/
theorem c10_duration_measure_rate :
    (∀ tracks : List (MTrackInfo × DRMetrics),
      (process_results_rows tracks).map (fun r => r.2.2.2.1) =
        tracks.map (fun tm =>
          pyRound ((tm.2.sample_count : ℚ) / (MEASURE_SAMPLE_RATE : ℚ)))) ∧
    ((88200 : ℤ) ≠ (MEASURE_SAMPLE_RATE : ℤ) ∧
      pyRound ((88200 : ℚ) / (MEASURE_SAMPLE_RATE : ℚ)) = 2 ∧
      ((2 : ℚ) ≠ (88200 : ℚ) / (88200 : ℚ))) := by
  refine ⟨?_, by decide, ?_, by norm_num⟩
  · intro tracks
    simp [process_results_rows]
  · have h : (88200 : ℚ) / (MEASURE_SAMPLE_RATE : ℚ) = ((2 : ℤ) : ℚ) := by
      rw [MEASURE_SAMPLE_RATE]
      norm_num
    rw [h, pyRound_intCast]

/-! ## Log grouping (src/main.py, make_log_groups, lines 79-93)

itertools.groupby groups only maximal runs of consecutive items with
equal keys; it is modelled here by groupRunsAux/groupRuns, written with
structural recursion over the input list. -/

/-- Modelled from the spec: the AudioSourceInfo record as main.py consumes
it in make_log_groups.  src/audio_io/audio_io.py's AudioSourceInfo has no
album field, yet main.py line 86 reads x[0].album; per the spec the album
title is the file-level TITLE.  Python sets (performers, albums) are
modelled as insertion-ordered lists deduplicated with dedup. -/
structure MAudioSourceInfo where
  path : String
  album : String
  performers : List String
  channel_count : ℤ
  sample_rate : ℤ
deriving DecidableEq

/-- LogGroup from main.py lines 26-31. -/
structure LogGroup where
  performers : List String
  albums : List String
  channels : ℤ
  sample_rate : ℤ
  tracks_dr : List LogRow
deriving DecidableEq

/-- One buffered (AudioSourceInfo, rows) pair, as collected in
dr_log_items. -/
abbrev GroupItem := MAudioSourceInfo × List LogRow

/-- The groupby key from main.py line 81:
(channel_count, sample_rate) of the source. -/
def sourceKey (x : GroupItem) : ℤ × ℤ :=
  (x.1.channel_count, x.1.sample_rate)

/-- Worker for the itertools.groupby model: k is the key of the run being
collected, acc its members in reverse. -/
def groupRunsAux (k : ℤ × ℤ) (acc : List GroupItem) :
    List GroupItem → List ((ℤ × ℤ) × List GroupItem)
  | [] => [(k, acc.reverse)]
  | x :: xs =>
    if sourceKey x = k then groupRunsAux k (x :: acc) xs
    else (k, acc.reverse) :: groupRunsAux (sourceKey x) [x] xs

/-- itertools.groupby(l, key=sourceKey): maximal runs of consecutive
items with equal keys, each tagged with the run's key. -/
def groupRuns : List GroupItem → List ((ℤ × ℤ) × List GroupItem)
  | [] => []
  | x :: xs => groupRunsAux (sourceKey x) [x] xs

/-- From main.py lines 79-93: one LogGroup per groupby run, with the
performer union, the album set, the shared key and the flattened rows. -/
def make_log_groups (l : List GroupItem) : List LogGroup :=
  (groupRuns l).map fun kr =>
    { performers := ((kr.2.map (fun x => x.1.performers)).flatten).dedup
      albums := (kr.2.map (fun x => x.1.album)).dedup
      channels := kr.1.1
      sample_rate := kr.1.2
      tracks_dr := (kr.2.map (fun x => x.2)).flatten }

/-- The runs produced by groupRunsAux concatenate back to the input
(prefixed by the run under construction). -/
theorem groupRunsAux_flatten (xs : List GroupItem) : ∀ k acc,
    ((groupRunsAux k acc xs).map (fun kr => kr.2)).flatten =
      acc.reverse ++ xs := by
  induction xs with
  | nil => intro k acc; simp [groupRunsAux]
  | cons x xs ih =>
    intro k acc
    by_cases h : sourceKey x = k
    · rw [groupRunsAux, if_pos h, ih]
      simp
    · rw [groupRunsAux, if_neg h]
      simp only [List.map_cons, List.flatten_cons, ih]
      simp

/-- The runs of groupRuns concatenate back to the input list. -/
theorem groupRuns_flatten (l : List GroupItem) :
    ((groupRuns l).map (fun kr => kr.2)).flatten = l := by
  cases l with
  | nil => rfl
  | cons x xs => rw [groupRuns, groupRunsAux_flatten]; rfl

/-- Every member of a produced run has that run's key. -/
theorem groupRunsAux_key (xs : List GroupItem) : ∀ k acc,
    (∀ a ∈ acc, sourceKey a = k) →
    ∀ p ∈ groupRunsAux k acc xs, ∀ x ∈ p.2, sourceKey x = p.1 := by
  induction xs with
  | nil =>
    intro k acc hacc p hp x hx
    rw [groupRunsAux] at hp
    simp only [List.mem_singleton] at hp
    subst hp
    simp only [List.mem_reverse] at hx
    exact hacc x hx
  | cons y ys ih =>
    intro k acc hacc p hp x hx
    by_cases h : sourceKey y = k
    · rw [groupRunsAux, if_pos h] at hp
      refine ih k (y :: acc) ?_ p hp x hx
      intro a ha
      rcases List.mem_cons.mp ha with rfl | ha
      · exact h
      · exact hacc a ha
    · rw [groupRunsAux, if_neg h] at hp
      rcases List.mem_cons.mp hp with rfl | hp
      · simp only [List.mem_reverse] at hx
        exact hacc x hx
      · refine ih (sourceKey y) [y] ?_ p hp x hx
        intro a ha
        rcases List.mem_singleton.mp ha with rfl
        rfl

/-- Every member of a groupRuns run has that run's key. -/
theorem groupRuns_key (l : List GroupItem) :
    ∀ p ∈ groupRuns l, ∀ x ∈ p.2, sourceKey x = p.1 := by
  cases l with
  | nil => intro p hp; cases hp
  | cons x xs =>
    rw [groupRuns]
    exact groupRunsAux_key xs (sourceKey x) [x]
      (by intro a ha; rcases List.mem_singleton.mp ha with rfl; rfl)

/-- Flattening rows of runs equals rows of the flattened runs. -/
theorem flatten_map_rows (ll : List (List GroupItem)) :
    ((ll.map (fun r => (r.map (fun x => x.2)).flatten)).flatten) =
      ((ll.flatten).map (fun x => x.2)).flatten := by
  induction ll with
  | nil => rfl
  | cons r rs ih => simp [ih]

/-- Three sources for the C2 counterexample: the first and third share
key (2, 44100) but are separated by a (1, 44100) source. -/
def c2CexL : List GroupItem :=
  [(⟨"f1", "A", ["p1"], 2, 44100⟩, [(none, 0, 0, 0, "01-a")]),
   (⟨"f2", "B", ["p2"], 1, 44100⟩, [(none, 0, 0, 0, "02-b")]),
   (⟨"f3", "C", ["p3"], 2, 44100⟩, [(none, 0, 0, 0, "03-c")])]

/-- C2 counterexample: the aggregator uses itertools.groupby, which only
merges consecutive equal keys, so two non-adjacent sources with the same
(channel_count, sample_rate) end up in two distinct LogGroups: three
groups are produced, the first and the third with the same key. -/
theorem c2_groupby_nonadjacent_cex :
    (make_log_groups c2CexL).map (fun g => (g.channels, g.sample_rate)) =
      [((2:ℤ), (44100:ℤ)), (1, 44100), (2, 44100)] ∧
    (make_log_groups c2CexL).map LogGroup.tracks_dr =
      [[(none, 0, 0, 0, "01-a")], [(none, 0, 0, 0, "02-b")],
       [(none, 0, 0, 0, "03-c")]] := by
  constructor <;> decide

/-- C2 amended: the aggregator groups by maximal runs of consecutive
sources sharing (channel_count, sample_rate): every member of a run has
the run's key, the runs concatenate back to the original source order
(so non-adjacent sources with an equal key form separate groups), and
the concatenation of all groups' rows is the original rows in discovery
order. -/
theorem c2_grouping_amended (l : List GroupItem) :
    ((make_log_groups l).map LogGroup.tracks_dr).flatten =
      (l.map (fun x => x.2)).flatten ∧
    (∀ p ∈ groupRuns l, ∀ x ∈ p.2, sourceKey x = p.1) ∧
    ((groupRuns l).map (fun kr => kr.2)).flatten = l := by
  refine ⟨?_, groupRuns_key l, groupRuns_flatten l⟩
  have h1 : (make_log_groups l).map LogGroup.tracks_dr =
      (groupRuns l).map (fun kr => (kr.2.map (fun x => x.2)).flatten) := by
    simp [make_log_groups]
  rw [h1]
  have h2 := flatten_map_rows ((groupRuns l).map (fun kr => kr.2))
  simp only [List.map_map] at h2
  rw [show ((fun r => (List.map (fun x => x.2) r).flatten) ∘ fun kr => kr.2)
      = (fun kr : (ℤ × ℤ) × List GroupItem =>
          ((kr.2.map (fun x => x.2)).flatten)) from rfl] at h2
  rw [h2, groupRuns_flatten]

/-- Witness for c2_grouping_amended: in a two-source run with equal keys,
the second member carries the run's key. -/
theorem c2_grouping_amended_witness :
    sourceKey (⟨"g2", "B", [], 2, 48000⟩, ([] : List LogRow)) =
      ((2:ℤ), (48000:ℤ)) :=
  (c2_grouping_amended
      [(⟨"g1", "A", [], 2, 48000⟩, []), (⟨"g2", "B", [], 2, 48000⟩, [])]).2.1
    ((2, 48000),
     [(⟨"g1", "A", [], 2, 48000⟩, []), (⟨"g2", "B", [], 2, 48000⟩, [])])
    (by decide)
    (⟨"g2", "B", [], 2, 48000⟩, [])
    (by decide)

/-! ## Sample stream segmenter (src/audio_io/audio_io.py,
_read_audio_blocks, lines 283-336)

The decode pipe is modelled by its remaining byte count: readinto(f, buf)
returns min(remaining, len(buf)) and f.read(k) consumes min(remaining, k).
Block contents are irrelevant to the claims, so a yielded block is
represented by its byte size (make_array turns read_size bytes into
read_size / (4 * channel_count) samples per channel). -/

/-- The read_n_bytes generator (audio_io.py lines 314-327).  Returns the
yielded block byte sizes, the bytes left in the stream, and whether the
`assert read_size == n` failed (True = AssertionError raised).  While
n is None or n ≥ max_bytes_per_block it reads whole buffers; a final
remainder 0 < n < max_bytes_per_block must be read exactly, else the
assert fires; end-of-stream inside the loop just returns.  The fuel
argument only bounds the loop: every iteration consumes at least one
byte, so fuel = rem + 1 never runs out. -/
def readNBytesFuel (maxB : ℕ) : ℕ → Option ℕ → ℕ → List ℕ × ℕ × Bool
  | 0, _, rem => ([], rem, false)
  | fuel + 1, none, rem =>
    let rs := min rem maxB
    if 0 < rs then
      let r := readNBytesFuel maxB fuel none (rem - rs)
      (rs :: r.1, r.2.1, r.2.2)
    else ([], rem, false)
  | fuel + 1, some k, rem =>
    if maxB ≤ k then
      let rs := min rem maxB
      if 0 < rs then
        let r := readNBytesFuel maxB fuel (some (k - rs)) (rem - rs)
        (rs :: r.1, r.2.1, r.2.2)
      else ([], rem, false)
    else if k = 0 then ([], rem, false)
    else
      let rs := min rem k
      if rs = k then ([k], rem - k, false)
      else ([], rem - rs, true)

/-- read_n_bytes with the always-sufficient fuel. -/
def read_n_bytes (maxB : ℕ) (n : Option ℕ) (rem : ℕ) :
    List ℕ × ℕ × Bool :=
  readNBytesFuel maxB (rem + 1) n rem

/-- Exact read: when the stream holds at least the k requested bytes,
read_n_bytes yields blocks totalling exactly k bytes, leaves rem − k,
and raises no assertion. -/
theorem readNBytesFuel_exact (maxB : ℕ) (hB : 0 < maxB) :
    ∀ fuel k rem, rem < fuel → k ≤ rem →
      (readNBytesFuel maxB fuel (some k) rem).1.sum = k ∧
      (readNBytesFuel maxB fuel (some k) rem).2.1 = rem - k ∧
      (readNBytesFuel maxB fuel (some k) rem).2.2 = false := by
  intro fuel
  induction fuel with
  | zero => intro k rem hf; omega
  | succ fuel ih =>
    intro k rem hf hk
    rw [readNBytesFuel]
    by_cases hbk : maxB ≤ k
    · rw [if_pos hbk]
      have hrs : min rem maxB = maxB := by omega
      rw [hrs]
      rw [if_pos hB]
      have hrec := ih (k - maxB) (rem - maxB) (by omega) (by omega)
      simp only
      refine ⟨?_, ?_, hrec.2.2⟩
      · rw [List.sum_cons, hrec.1]; omega
      · rw [hrec.2.1]; omega
    · rw [if_neg hbk]
      by_cases hk0 : k = 0
      · rw [if_pos hk0]
        subst hk0
        exact ⟨rfl, by simp, rfl⟩
      · rw [if_neg hk0]
        have hrs : min rem k = k := by omega
        rw [hrs, if_pos rfl]
        exact ⟨by simp, rfl, rfl⟩

/-- Unbounded read (final track): the stream is fully drained, all of it
is yielded, and no assertion can fire. -/
theorem readNBytesFuel_none (maxB : ℕ) (hB : 0 < maxB) :
    ∀ fuel rem, rem < fuel →
      (readNBytesFuel maxB fuel none rem).1.sum = rem ∧
      (readNBytesFuel maxB fuel none rem).2.1 = 0 ∧
      (readNBytesFuel maxB fuel none rem).2.2 = false := by
  intro fuel
  induction fuel with
  | zero => intro rem hf; omega
  | succ fuel ih =>
    intro rem hf
    rw [readNBytesFuel]
    by_cases hr : 0 < min rem maxB
    · rw [if_pos hr]
      have hrec := ih (rem - min rem maxB) (by omega)
      simp only
      refine ⟨?_, hrec.2.1, hrec.2.2⟩
      rw [List.sum_cons, hrec.1]; omega
    · rw [if_neg hr]
      have : rem = 0 := by omega
      subst this
      exact ⟨rfl, rfl, rfl⟩

/-- Truncated read: when the stream holds fewer than the k requested
bytes, the assert fires iff the shortage k − rem is smaller than one
full buffer; a shortage of at least max_bytes_per_block ends the
generator silently. -/
theorem readNBytesFuel_short (maxB : ℕ) (hB : 0 < maxB) :
    ∀ fuel k rem, rem < fuel → rem < k →
      (readNBytesFuel maxB fuel (some k) rem).2.2 =
        decide (k - rem < maxB) := by
  intro fuel
  induction fuel with
  | zero => intro k rem hf; omega
  | succ fuel ih =>
    intro k rem hf hk
    rw [readNBytesFuel]
    by_cases hbk : maxB ≤ k
    · rw [if_pos hbk]
      by_cases hr : 0 < min rem maxB
      · rw [if_pos hr]
        have hrec := ih (k - min rem maxB) (rem - min rem maxB)
          (by omega) (by omega)
        simp only
        rw [hrec]
        congr 1
        simp only [eq_iff_iff]
        omega
      · rw [if_neg hr]
        have : rem = 0 := by omega
        subst this
        simp only
        symm
        rw [decide_eq_false_iff_not]
        omega
    · rw [if_neg hbk]
      have hk0 : ¬ k = 0 := by omega
      rw [if_neg hk0]
      have hrs : ¬ min rem k = k := by omega
      rw [if_neg hrs]
      simp only
      symm
      rw [decide_eq_true_iff]
      omega

/-- read_n_bytes under an exact-length request the stream can satisfy. -/
theorem read_n_bytes_exact (maxB k rem : ℕ) (hB : 0 < maxB)
    (hk : k ≤ rem) :
    (read_n_bytes maxB (some k) rem).1.sum = k ∧
    (read_n_bytes maxB (some k) rem).2.1 = rem - k ∧
    (read_n_bytes maxB (some k) rem).2.2 = false :=
  readNBytesFuel_exact maxB hB (rem + 1) k rem (by omega) hk

/-- read_n_bytes with no length bound drains the stream. -/
theorem read_n_bytes_none (maxB rem : ℕ) (hB : 0 < maxB) :
    (read_n_bytes maxB none rem).1.sum = rem ∧
    (read_n_bytes maxB none rem).2.1 = 0 ∧
    (read_n_bytes maxB none rem).2.2 = false :=
  readNBytesFuel_none maxB hB (rem + 1) rem (by omega)

/-- read_n_bytes on a stream shorter than the request: the assert fires
iff the shortage is smaller than one full buffer. -/
theorem read_n_bytes_short_iff (maxB k rem : ℕ) (hB : 0 < maxB)
    (h : rem < k) :
    (read_n_bytes maxB (some k) rem).2.2 = decide (k - rem < maxB) :=
  readNBytesFuel_short maxB hB (rem + 1) k rem (by omega) h

/-- The per-track loop of _read_audio_blocks (audio_io.py lines 329-336):
each non-final track requests (next offset − this offset) samples, i.e.
that many times bytes_per_sample bytes; the final track reads with
bytes_to_read = None.  The first AssertionError stops the run. -/
def readTracks (maxB bps : ℕ) : List ℕ → ℕ → List (List ℕ) × ℕ × Bool
  | [], rem => ([], rem, false)
  | [_], rem =>
    let r := read_n_bytes maxB none rem
    ([r.1], r.2.1, r.2.2)
  | o1 :: o2 :: rest, rem =>
    let r := read_n_bytes maxB (some ((o2 - o1) * bps)) rem
    if r.2.2 then ([r.1], r.2.1, true)
    else
      let rs := readTracks maxB bps (o2 :: rest) r.2.1
      (r.1 :: rs.1, rs.2.1, rs.2.2)

/-- _read_audio_blocks (audio_io.py lines 283-336) over an abstract byte
stream of totalBytes bytes: bytes_per_sample = 4 * channel_count,
max_bytes_per_block = bytes_per_sample * samples_per_block; it first
discards bytes_per_sample * tracks[0].offset_samples bytes (f.read
consumes what is available), then runs the per-track loop.  An empty
track list makes the Python code raise at tracks[0]; modelled by the
error flag. -/
def _read_audio_blocks (channel_count samples_per_block : ℕ)
    (offsets : List ℕ) (totalBytes : ℕ) : List (List ℕ) × ℕ × Bool :=
  let bps := 4 * channel_count
  let maxB := bps * samples_per_block
  match offsets with
  | [] => ([], totalBytes, true)
  | o1 :: rest => readTracks maxB bps (o1 :: rest) (totalBytes - bps * o1)

/-- The head of a non-decreasing chain is at most its last element. -/
theorem chain_le_getLast (rest : List ℕ) : ∀ (a : ℕ),
    List.Chain' (· ≤ ·) (a :: rest) →
    a ≤ (a :: rest).getLast (List.cons_ne_nil a rest) := by
  induction rest with
  | nil => intro a _; exact le_refl a
  | cons b l ih =>
    intro a hchain
    rw [List.getLast_cons (List.cons_ne_nil b l)]
    have h1 : a ≤ b := (List.chain'_cons.mp hchain).1
    exact le_trans h1 (ih b (List.chain'_cons.mp hchain).2)

/-- Telescoping: the consecutive differences of a non-decreasing chain
sum to last − head. -/
theorem chain_zip_sum (rest : List ℕ) : ∀ (a : ℕ),
    List.Chain' (· ≤ ·) (a :: rest) →
    (((a :: rest).zip rest).map (fun p => p.2 - p.1)).sum =
      (a :: rest).getLast (List.cons_ne_nil a rest) - a := by
  induction rest with
  | nil => intro a _; simp
  | cons b l ih =>
    intro a hchain
    have h1 : a ≤ b := (List.chain'_cons.mp hchain).1
    have h2 := (List.chain'_cons.mp hchain).2
    have hbL := chain_le_getLast l b h2
    rw [List.getLast_cons (List.cons_ne_nil b l)]
    simp only [List.zip_cons_cons, List.map_cons, List.sum_cons, ih b h2]
    omega

/-- Main segmenter lemma: with a non-empty, non-decreasing offset list
whose data the stream fully covers, the per-track loop raises nothing,
drains the stream, and yields per-track byte totals of exactly
(next − this) * bps for each non-final track and the whole remainder for
the final track. -/
theorem readTracks_spec (maxB bps : ℕ) (hB : 0 < maxB) :
    ∀ (rest : List ℕ) (o1 rem : ℕ),
      List.Chain' (· ≤ ·) (o1 :: rest) →
      ((o1 :: rest).getLast (List.cons_ne_nil o1 rest) - o1) * bps ≤ rem →
      (readTracks maxB bps (o1 :: rest) rem).2.2 = false ∧
      (readTracks maxB bps (o1 :: rest) rem).2.1 = 0 ∧
      (readTracks maxB bps (o1 :: rest) rem).1.map List.sum =
        ((o1 :: rest).zip rest).map (fun p => (p.2 - p.1) * bps) ++
          [rem - ((o1 :: rest).getLast (List.cons_ne_nil o1 rest) - o1) * bps] := by
  intro rest
  induction rest with
  | nil =>
    intro o1 rem _ _
    have hr := read_n_bytes_none maxB rem hB
    simp only [readTracks]
    refine ⟨hr.2.2, hr.2.1, ?_⟩
    simp [hr.1]
  | cons o2 rest' ih =>
    intro o1 rem hchain hrem
    have h12 : o1 ≤ o2 := (List.chain'_cons.mp hchain).1
    have hchain2 := (List.chain'_cons.mp hchain).2
    have h2L := chain_le_getLast rest' o2 hchain2
    have hLeq : (o1 :: o2 :: rest').getLast (List.cons_ne_nil o1 (o2 :: rest'))
        = (o2 :: rest').getLast (List.cons_ne_nil o2 rest') :=
      List.getLast_cons (List.cons_ne_nil o2 rest')
    rw [hLeq] at hrem
    have hkey : ((o2 :: rest').getLast (List.cons_ne_nil o2 rest') - o1)
        = ((o2 :: rest').getLast (List.cons_ne_nil o2 rest') - o2)
          + (o2 - o1) := by omega
    rw [hkey, Nat.add_mul] at hrem
    have hn_le : (o2 - o1) * bps ≤ rem := by omega
    have hr := read_n_bytes_exact maxB ((o2 - o1) * bps) rem hB hn_le
    have hrec := ih o2 (rem - (o2 - o1) * bps) hchain2 (by omega)
    simp only [readTracks, hr.2.2, if_false, Bool.false_eq_true, hr.2.1]
    refine ⟨hrec.1, hrec.2.1, ?_⟩
    simp only [List.map_cons, hr.1, List.zip_cons_cons]
    rw [hrec.2.2, hLeq, hkey, Nat.add_mul]
    have hlast : rem - (o2 - o1) * bps
        - ((o2 :: rest').getLast (List.cons_ne_nil o2 rest') - o2) * bps
        = rem - (((o2 :: rest').getLast (List.cons_ne_nil o2 rest') - o2) * bps
          + (o2 - o1) * bps) := by omega
    rw [hlast]
    rfl

/-- C4: for a non-empty track list with non-decreasing offsets and a
decode stream of S samples (4 * channel_count bytes each) covering every
track start, the splitter discards tracks[0].offset_samples samples, each
non-final track receives exactly next_offset − this_offset samples, the
final track runs to exhaustion (receiving S − last_offset samples), and
the per-track sample counts sum to S − tracks[0].offset_samples. -/
theorem c4_segmenter_totals (cc spb : ℕ) (offsets : List ℕ) (S : ℕ)
    (hcc : 1 ≤ cc) (hspb : 1 ≤ spb) (hne : offsets ≠ [])
    (hmono : List.Chain' (· ≤ ·) offsets)
    (hS : offsets.getLast hne ≤ S) :
    (_read_audio_blocks cc spb offsets (4 * cc * S)).2.2 = false ∧
    (_read_audio_blocks cc spb offsets (4 * cc * S)).1.map
        (fun bs => bs.sum / (4 * cc)) =
      (offsets.zip offsets.tail).map (fun p => p.2 - p.1) ++
        [S - offsets.getLast hne] ∧
    ((_read_audio_blocks cc spb offsets (4 * cc * S)).1.map
        (fun bs => bs.sum / (4 * cc))).sum = S - offsets.head hne := by
  obtain ⟨o1, rest, rfl⟩ := List.exists_cons_of_ne_nil hne
  have hbps : 0 < 4 * cc := by omega
  have hmaxB : 0 < 4 * cc * spb := by positivity
  have hLdef : (o1 :: rest).getLast hne
      = (o1 :: rest).getLast (List.cons_ne_nil o1 rest) := rfl
  have ho1L : o1 ≤ (o1 :: rest).getLast (List.cons_ne_nil o1 rest) :=
    chain_le_getLast rest o1 hmono
  have hLS : (o1 :: rest).getLast (List.cons_ne_nil o1 rest) ≤ S := by
    rw [hLdef] at hS; exact hS
  have hsplit : S = (S - (o1 :: rest).getLast (List.cons_ne_nil o1 rest))
      + ((o1 :: rest).getLast (List.cons_ne_nil o1 rest) - o1) + o1 := by
    omega
  have hSmul : S * (4 * cc)
      = (S - (o1 :: rest).getLast (List.cons_ne_nil o1 rest)) * (4 * cc)
        + ((o1 :: rest).getLast (List.cons_ne_nil o1 rest) - o1) * (4 * cc)
        + o1 * (4 * cc) := by
    rw [← Nat.add_mul, ← Nat.add_mul, ← hsplit]
  have hrem : ((o1 :: rest).getLast (List.cons_ne_nil o1 rest) - o1) * (4 * cc)
      ≤ 4 * cc * S - 4 * cc * o1 := by
    rw [mul_comm (4 * cc) S, mul_comm (4 * cc) o1]
    omega
  have hspec := readTracks_spec (4 * cc * spb) (4 * cc) hmaxB rest o1
    (4 * cc * S - 4 * cc * o1) hmono hrem
  have hunfold : _read_audio_blocks cc spb (o1 :: rest) (4 * cc * S)
      = readTracks (4 * cc * spb) (4 * cc) (o1 :: rest)
          (4 * cc * S - 4 * cc * o1) := rfl
  have hmap2 : (readTracks (4 * cc * spb) (4 * cc) (o1 :: rest)
      (4 * cc * S - 4 * cc * o1)).1.map (fun bs => bs.sum / (4 * cc))
      = ((o1 :: rest).zip rest).map (fun p => p.2 - p.1) ++
          [S - (o1 :: rest).getLast (List.cons_ne_nil o1 rest)] := by
    have hcomp : (readTracks (4 * cc * spb) (4 * cc) (o1 :: rest)
        (4 * cc * S - 4 * cc * o1)).1.map (fun bs => bs.sum / (4 * cc))
        = ((readTracks (4 * cc * spb) (4 * cc) (o1 :: rest)
            (4 * cc * S - 4 * cc * o1)).1.map List.sum).map
              (fun n => n / (4 * cc)) := by
      rw [List.map_map]; rfl
    rw [hcomp, hspec.2.2, List.map_append]
    congr 1
    · rw [List.map_map]
      refine List.map_congr_left ?_
      intro p _
      simp only [Function.comp_apply]
      exact Nat.mul_div_cancel _ hbps
    · simp only [List.map_cons, List.map_nil]
      congr 1
      have hlast : 4 * cc * S - 4 * cc * o1
          - ((o1 :: rest).getLast (List.cons_ne_nil o1 rest) - o1) * (4 * cc)
          = (S - (o1 :: rest).getLast (List.cons_ne_nil o1 rest)) * (4 * cc) := by
        rw [mul_comm (4 * cc) S, mul_comm (4 * cc) o1]
        omega
      rw [hlast]
      exact Nat.mul_div_cancel _ hbps
  rw [hunfold, hLdef]
  refine ⟨hspec.1, hmap2, ?_⟩
  rw [hmap2, List.sum_append]
  have htel := chain_zip_sum rest o1 hmono
  simp only [List.tail_cons] at htel ⊢
  rw [htel]
  simp only [List.sum_cons, List.sum_nil, add_zero, List.head_cons]
  omega

/-- Witness for c4_segmenter_totals: one channel, 2-sample blocks, two
tracks at offsets 1 and 3, a 5-sample stream. -/
theorem c4_segmenter_totals_witness :
    (_read_audio_blocks 1 2 [1, 3] (4 * 1 * 5)).2.2 = false ∧
    (_read_audio_blocks 1 2 [1, 3] (4 * 1 * 5)).1.map
        (fun bs => bs.sum / (4 * 1)) =
      (([1, 3] : List ℕ).zip ([1, 3] : List ℕ).tail).map
          (fun p => p.2 - p.1) ++
        [5 - ([1, 3] : List ℕ).getLast (by decide)] ∧
    ((_read_audio_blocks 1 2 [1, 3] (4 * 1 * 5)).1.map
        (fun bs => bs.sum / (4 * 1))).sum =
      5 - ([1, 3] : List ℕ).head (by decide) :=
  c4_segmenter_totals 1 2 [1, 3] 5 (by decide) (by decide) (by decide)
    (by rw [List.chain'_cons]; exact ⟨by norm_num, List.chain'_singleton 3⟩)
    (by decide)

/-- C8 counterexample: one channel, 2-sample blocks, tracks at offsets
0 and 10, but an empty decode stream (e.g. the decoder exited at once
with an error and produced nothing): the non-final track needs
(10 − 0) * 4 = 40 bytes, gets none of them, and yet no error of any kind
is raised — the truncation is silently treated as end of data, and the
decoder's exit status is never examined by _read_audio_blocks. -/
theorem c8_silent_truncation_cex :
    (_read_audio_blocks 1 2 [0, 10] 0).2.2 = false ∧
    (_read_audio_blocks 1 2 [0, 10] 0).1.map List.sum = [0, 0] ∧
    (10 - 0) * (4 * 1) = 40 ∧ (0 : ℕ) < 40 := by
  refine ⟨?_, ?_, by decide, by decide⟩ <;> decide

/-- C8 amended: the splitter's reader detects a truncated stream with the
`assert read_size == n` failure if and only if the missing byte count of
the current bounded read is smaller than one full block buffer; when at
least a whole buffer is missing, the generator just returns and the short
stream passes silently (and the decoder's exit status is never checked
anywhere in _read_audio_blocks). -/
theorem c8_truncation_amended (maxB k rem : ℕ) (hB : 0 < maxB)
    (h : rem < k) :
    (read_n_bytes maxB (some k) rem).2.2 = decide (k - rem < maxB) :=
  read_n_bytes_short_iff maxB k rem hB h

/-- Witness for c8_truncation_amended: 8-byte buffer, 5 bytes requested,
empty stream: the shortage 5 is below the buffer size, so the assert
fires. -/
theorem c8_truncation_amended_witness :
    (read_n_bytes 8 (some 5) 0).2.2 = decide (5 - 0 < 8) :=
  c8_truncation_amended 8 5 0 (by decide) (by decide)

/-! ## CUE command parsing (src/audio_io/audio_io.py, _parse_cue_cmd /
parse_cd_time, lines 91-124)

Lines are modelled as character lists.  re.split(whitespace+, s, 1) is
splitFirstRun; str.strip() is stripChars; _unquote uses the first and
last double quote; int() strips whitespace, takes an optional sign and
decimal digits.  A Python ValueError (failed tuple unpacking, missing
quote, bad integer literal) is Except.error. -/

/-- Python whitespace class. -/
def pyIsSpace (c : Char) : Bool :=
  c == ' ' || c == '\t' || c == '\n' || c == '\r' || c == '\x0b' || c == '\x0c'

/-- str.strip(): drop leading and trailing whitespace. -/
def stripChars (l : List Char) : List Char :=
  ((l.dropWhile pyIsSpace).reverse.dropWhile pyIsSpace).reverse

/-- _whitespace_pattern.split(s, 1): split at the first maximal
whitespace run; none when the string has no whitespace at all (then
Python's 2-tuple unpacking raises ValueError). -/
def splitFirstRun : List Char → Option (List Char × List Char)
  | [] => none
  | c :: cs =>
    if pyIsSpace c then some ([], cs.dropWhile pyIsSpace)
    else
      match splitFirstRun cs with
      | none => none
      | some p => some (c :: p.1, p.2)

/-- Index of the first double quote (str.index). -/
def firstQuoteIdx : List Char → Option ℕ
  | [] => none
  | c :: cs => if c = '"' then some 0 else (firstQuoteIdx cs).map (· + 1)

/-- Index of the last double quote (str.rindex). -/
def lastQuoteIdx (s : List Char) : Option ℕ :=
  (firstQuoteIdx s.reverse).map (fun i => s.length - 1 - i)

/-- _unquote (audio_io.py lines 94-95): s[1 + s.index(quote) :
s.rindex(quote)]; ValueError when the string holds no double quote. -/
def pyUnquote (s : List Char) : Except String (List Char) :=
  match firstQuoteIdx s, lastQuoteIdx s with
  | some i, some j => .ok ((s.take j).drop (i + 1))
  | _, _ => .error "ValueError: substring not found"

/-- Decimal digit accumulation; none unless the list is a non-empty
all-digit run. -/
def digitsToNat (l : List Char) : Option ℕ :=
  if l = [] then none
  else
    l.foldl (fun acc c =>
      match acc with
      | none => none
      | some n => if c.isDigit then some (10 * n + (c.toNat - 48)) else none)
      (some 0)

/-- Python int(str): strip whitespace, optional sign, decimal digits;
ValueError otherwise. -/
def pyParseInt (s : List Char) : Except String ℤ :=
  match stripChars s with
  | '-' :: ds =>
    match digitsToNat ds with
    | some n => .ok (-(n : ℤ))
    | none => .error "ValueError: invalid literal for int"
  | '+' :: ds =>
    match digitsToNat ds with
    | some n => .ok (n : ℤ)
    | none => .error "ValueError: invalid literal for int"
  | ds =>
    match digitsToNat ds with
    | some n => .ok (n : ℤ)
    | none => .error "ValueError: invalid literal for int"

/-- str.split(single colon): every colon splits, empty parts kept. -/
def splitColon : List Char → List (List Char)
  | [] => [[]]
  | c :: cs =>
    if c = ':' then [] :: splitColon cs
    else
      match splitColon cs with
      | [] => [[c]]
      | p :: ps => (c :: p) :: ps

/-- parse_cd_time (audio_io.py lines 98-102): MM:SS:FF at 75 frames per
second, parsed exactly to a rational number of seconds. -/
def parse_cd_time (offset : List Char) : Except String ℚ :=
  match splitColon offset with
  | [m, s, f] =>
    match pyParseInt m, pyParseInt s, pyParseInt f with
    | .ok mv, .ok sv, .ok fv => .ok ((mv : ℚ) * 60 + (sv : ℚ) + (fv : ℚ) / 75)
    | _, _, _ => .error "ValueError: invalid literal for int"
  | _ => .error "ValueError: not enough values to unpack"

/-- The typed commands of the CUE parser (CueCmd enum plus payloads). -/
inductive CueCmdVal where
  | performer (s : String)
  | title (s : String)
  | file (s : String)
  | track (n : ℤ)
  | index (n : ℤ) (t : ℚ)
  | eof
deriving DecidableEq

/-- _parse_cue_cmd (audio_io.py lines 105-124): strip the line, split off
the first word, dispatch on it; unknown commands fall through to None
(the line is ignored); a line with no whitespace at all fails the
2-tuple unpacking with ValueError before any dispatch. -/
def _parse_cue_cmd (line : String) : Except String (Option CueCmdVal) :=
  match splitFirstRun (stripChars line.data) with
  | none => .error "ValueError: not enough values to unpack"
  | some (cmd, args) =>
    if cmd = "PERFORMER".data then
      (pyUnquote args).map (fun s => some (.performer (String.mk s)))
    else if cmd = "TITLE".data then
      (pyUnquote args).map (fun s => some (.title (String.mk s)))
    else if cmd = "FILE".data then
      (pyUnquote args).map (fun s => some (.file (String.mk s)))
    else if cmd = "TRACK".data then
      match splitFirstRun args with
      | none => .error "ValueError: not enough values to unpack"
      | some p => (pyParseInt p.1).map (fun n => some (.track n))
    else if cmd = "INDEX".data then
      match splitFirstRun args with
      | none => .error "ValueError: not enough values to unpack"
      | some p =>
        match pyParseInt p.1 with
        | .error e => .error e
        | .ok n =>
          match parse_cd_time p.2 with
          | .error e => .error e
          | .ok t => .ok (some (.index n t))
    else
      .ok none

/-- The five command words _parse_cue_cmd recognizes. -/
def knownCueCmds : List (List Char) :=
  ["PERFORMER".data, "TITLE".data, "FILE".data, "TRACK".data, "INDEX".data]

/-- C6 counterexample: a line consisting of a single word (or an empty
line) is NOT silently ignored; the tuple unpacking of the split raises a
ValueError.  Here the common CUE line `REM` crashes the parser, and so
does a blank line. -/
theorem c6_single_word_cex :
    _parse_cue_cmd "REM" = .error "ValueError: not enough values to unpack" ∧
    _parse_cue_cmd "" = .error "ValueError: not enough values to unpack" := by
  constructor <;> rfl

/-- C6 amended: a line whose stripped text splits into a first word plus
arguments is silently ignored (ok none) whenever that first word is not
one of the five known commands; but a line whose stripped text contains
no whitespace at all — a single word or an empty line — raises a
ValueError instead of being ignored (and TRACK/INDEX lines with missing
or non-numeric fields, and PERFORMER/TITLE/FILE lines without a double
quote, also raise). -/
theorem c6_ignore_amended (line : String) :
    (∀ cmd args, splitFirstRun (stripChars line.data) = some (cmd, args) →
      cmd ∉ knownCueCmds → _parse_cue_cmd line = .ok none) ∧
    (splitFirstRun (stripChars line.data) = none →
      ∃ e, _parse_cue_cmd line = .error e) := by
  constructor
  · intro cmd args hsplit hmem
    simp only [knownCueCmds, List.mem_cons, List.not_mem_nil, or_false,
      not_or] at hmem
    obtain ⟨h1, h2, h3, h4, h5⟩ := hmem
    unfold _parse_cue_cmd
    rw [hsplit]
    simp only [if_neg h1, if_neg h2, if_neg h3, if_neg h4, if_neg h5]
  · intro hsplit
    refine ⟨"ValueError: not enough values to unpack", ?_⟩
    unfold _parse_cue_cmd
    rw [hsplit]

/-- Witness for c6_ignore_amended: the line `REM PURE` has an unknown
first word with arguments and is ignored. -/
theorem c6_ignore_amended_witness :
    _parse_cue_cmd "REM PURE" = .ok none :=
  (c6_ignore_amended "REM PURE").1 "REM".data "PURE".data (by decide)
    (by decide)

/-! ## CUE resolver state machine (src/audio_io/audio_io.py,
_translate_from_cue, lines 141-196)

The for-loop over cue_items is a fold over an explicit state; yields are
accumulated in the out field.  The probe for each referenced file (the
external _get_params) is a parameter; its result goes through
_get_audio_properties (claim C7).  Failed asserts and arithmetic on a
missing sample rate are Except.error. -/

/-- TrackInfo exactly as declared in src/audio_io/audio_io.py lines
71-73: a NamedTuple with fields name and offset_samples only. -/
structure TrackInfo where
  name : String
  offset_samples : ℤ
deriving DecidableEq

/-- A Python attribute value of a TrackInfo field. -/
inductive PyAttrVal where
  | str (s : String)
  | int (z : ℤ)
deriving DecidableEq

/-- Python attribute lookup on a TrackInfo value: the two declared
fields resolve; any other attribute raises AttributeError (none). -/
def TrackInfo.pyGetAttr (t : TrackInfo) (attr : String) : Option PyAttrVal :=
  if attr = "name" then some (.str t.name)
  else if attr = "offset_samples" then some (.int t.offset_samples)
  else none

/-- AudioSourceInfo (audio_io.py lines 76-82); the name and the probed
properties hold Python None until a FILE command set them. -/
structure AudioSourceInfo where
  path : String
  name : Option String
  performers : List String
  channel_count : Option ℤ
  sample_rate : Option ℤ
  tracks : List TrackInfo
deriving DecidableEq

/-- os.path.join of the CUE sheet's directory and a referenced name. -/
def joinPath (dir name : String) : String := dir ++ "/" ++ name

/-- The loop state of _translate_from_cue (audio_io.py lines 142-152)
plus the sources yielded so far. -/
structure CueState where
  index_number : Option ℤ
  index_offset : Option ℤ
  last_file_path : Option String
  channel_count : Option ℤ
  sample_rate : Option ℤ
  track_start : Bool
  last_title_file : Option String
  last_title_track : Option String
  tracks : List TrackInfo
  out : List AudioSourceInfo
deriving DecidableEq

/-- All state variables start as None / False / empty. -/
def initCueState : CueState :=
  ⟨none, none, none, none, none, false, none, none, [], []⟩

/-- Lines 158-163: on TRACK/FILE/EOF, close the pending track when an
INDEX was seen; the asserts on last_title_track and index_offset raise
AssertionError when violated. -/
def cueFlush (st : CueState) : Except String CueState :=
  match st.index_number with
  | none => .ok st
  | some _ =>
    match st.last_title_track, st.index_offset with
    | some title, some off =>
      .ok { st with
            tracks := st.tracks ++ [⟨title, off⟩],
            index_number := none }
    | _, _ => .error "AssertionError"

/-- Lines 168-177: on FILE/EOF, emit the previous file's AudioSourceInfo
when last_file_path is truthy (a non-empty string), with performers ()
and the file-level title as the name; the track list restarts. -/
def cueYield (st : CueState) : CueState :=
  match st.last_file_path with
  | some p =>
    if p = "" then st
    else
      { st with
        out := st.out ++ [⟨p, st.last_title_file, [], st.channel_count,
          st.sample_rate, st.tracks⟩],
        tracks := [] }
  | none => st

/-- One iteration of the command loop (audio_io.py lines 156-196). -/
def cueStep (probe : String → ℤ × ℤ) (dir : String) (st : CueState) :
    CueCmdVal → Except String CueState
  | .track _ =>
    match cueFlush st with
    | .error e => .error e
    | .ok st2 => .ok { st2 with track_start := true }
  | .file name =>
    match cueFlush st with
    | .error e => .error e
    | .ok st2 =>
      let st3 := cueYield st2
      let p := joinPath dir name
      match _get_audio_properties (probe p).1 (probe p).2 with
      | .error e => .error e
      | .ok cs =>
        .ok { st3 with
              last_file_path := some p,
              channel_count := some cs.1, sample_rate := some cs.2 }
  | .eof =>
    match cueFlush st with
    | .error e => .error e
    | .ok st2 => .ok (cueYield st2)
  | .title s =>
    if st.track_start then .ok { st with last_title_track := some s }
    else .ok { st with last_title_file := some s }
  | .index n t =>
    let st2 := { st with track_start := false }
    match st2.index_number with
    | none =>
      match st2.sample_rate with
      | some sr =>
        .ok { st2 with
              index_number := some n,
              index_offset := some (pyInt ((sr : ℚ) * t)) }
      | none => .error "TypeError: unsupported operand"
    | some m =>
      if n < m then
        match st2.sample_rate with
        | some sr =>
          .ok { st2 with
                index_number := some n,
                index_offset := some (pyInt ((sr : ℚ) * t)) }
        | none => .error "TypeError: unsupported operand"
      else .ok st2
  | .performer _ => .ok st

/-- The command loop: processes commands in order, stops at EOF (the
generator returns there) or at the first error. -/
def runCue (probe : String → ℤ × ℤ) (dir : String) :
    List CueCmdVal → CueState → Except String CueState
  | [], st => .ok st
  | c :: rest, st =>
    match cueStep probe dir st c with
    | .error e => .error e
    | .ok st2 => if c = .eof then .ok st2 else runCue probe dir rest st2

/-- _translate_from_cue (audio_io.py lines 141-196): run the machine on
the parsed commands and return the yielded sources. -/
def _translate_from_cue (probe : String → ℤ × ℤ) (dir : String)
    (cue_items : List CueCmdVal) : Except String (List AudioSourceInfo) :=
  (runCue probe dir cue_items initCueState).map (fun st => st.out)

/-- Stated from the spec's words: among the INDEX entries of one track,
the first entry carrying the numerically lowest index number. -/
def firstMinIndex (p : ℤ × ℚ) (rest : List (ℤ × ℚ)) : ℤ × ℚ :=
  rest.foldl (fun best q => if q.1 < best.1 then q else best) p

/-- C5: TrackInfo as declared in src/audio_io/audio_io.py has exactly the
fields name and offset_samples; the attribute global_index that main.py
reads on every analyzed track (lines 125 and 196) does not exist, so the
access raises AttributeError (none). -/
theorem c5_trackinfo_missing_global_index (t : TrackInfo) :
    t.pyGetAttr "global_index" = none ∧
    t.pyGetAttr "name" = some (.str t.name) ∧
    t.pyGetAttr "offset_samples" = some (.int t.offset_samples) := by
  refine ⟨?_, ?_, ?_⟩ <;> rfl

/-- os.path.join output is never the empty string (it contains the
separator). -/
theorem joinPath_ne_empty (dir name : String) : joinPath dir name ≠ "" := by
  intro h
  have hlen := congrArg String.length h
  have h1 : ("/" : String).length = 1 := rfl
  simp only [joinPath, String.length_append, h1] at hlen
  have h0 : ("" : String).length = 0 := rfl
  rw [h0] at hlen
  omega

/-- Probe for the C3 counterexample: every file reports 2 channels at
8000 Hz (valid per _get_audio_properties, and 8000 is not divisible
by 75). -/
def c3Probe : String → ℤ × ℤ := fun _ => (2, 8000)

/-- C3 counterexample: one track with INDEX 01 at 00:00:01 (one CD frame,
1/75 s) in a 8000 Hz file.  The code stores int(8000 * 1/75) =
int(106.67) = 106 (truncation toward zero), while the claim's
round(sample_rate × t) = 107. -/
theorem c3_truncation_cex :
    _translate_from_cue c3Probe "d"
      [.file "a.wav", .track 1, .title "T", .index 1 (1/75), .eof]
      = .ok [⟨joinPath "d" "a.wav", none, [], some 2, some 8000,
          [⟨"T", 106⟩]⟩] ∧
    pyRound (((8000 : ℤ) : ℚ) * (1/75)) = 107 ∧ ((106 : ℤ) ≠ 107) := by
  refine ⟨?_, ?_, by decide⟩
  · have hoff : pyInt ((320 : ℚ) / 3) = 106 :=
      pyInt_of_bounds _ 106 (by norm_num) (by norm_num) (by norm_num)
    simp only [_translate_from_cue, runCue, cueStep, cueFlush, cueYield,
      initCueState, c3Probe, _get_audio_properties]
    norm_num [Except.map, hoff, if_neg (joinPath_ne_empty "d" "a.wav")]
    simp
  · have h : ((8000 : ℤ) : ℚ) * (1/75) = 320/3 := by norm_num
    rw [h]
    have := pyRound_of_half_lt (320/3) 106 (by norm_num) (by norm_num)
    simpa using this

/-- Processing a run of INDEX commands only folds the pending
(index_number, index_offset) pair with the strictly-lower update of
audio_io.py lines 191-192 and leaves every other relevant state field
unchanged. -/
theorem runCue_indexes (probe : String → ℤ × ℤ) (dir : String)
    (idxs : List (ℤ × ℚ)) : ∀ (rest : List CueCmdVal) (st : CueState)
    (sr : ℤ) (best : ℤ × ℚ),
    st.sample_rate = some sr →
    st.index_number = some best.1 →
    st.index_offset = some (pyInt ((sr : ℚ) * best.2)) →
    ∃ st2,
      runCue probe dir
        (idxs.map (fun q => CueCmdVal.index q.1 q.2) ++ rest) st
        = runCue probe dir rest st2 ∧
      st2.sample_rate = st.sample_rate ∧
      st2.last_title_track = st.last_title_track ∧
      st2.last_file_path = st.last_file_path ∧
      st2.channel_count = st.channel_count ∧
      st2.last_title_file = st.last_title_file ∧
      st2.tracks = st.tracks ∧
      st2.out = st.out ∧
      st2.index_number =
        some (idxs.foldl (fun b q => if q.1 < b.1 then q else b) best).1 ∧
      st2.index_offset = some (pyInt ((sr : ℚ) *
        (idxs.foldl (fun b q => if q.1 < b.1 then q else b) best).2)) := by
  induction idxs with
  | nil =>
    intro rest st sr best h1 h2 h3
    exact ⟨st, by simp, rfl, rfl, rfl, rfl, rfl, rfl, rfl, h2, h3⟩
  | cons q qs ih =>
    intro rest st sr best h1 h2 h3
    have hn : ({ st with track_start := false } : CueState).index_number
        = some best.1 := h2
    have hs : ({ st with track_start := false } : CueState).sample_rate
        = some sr := h1
    by_cases hlt : q.1 < best.1
    · have hstep : cueStep probe dir st (.index q.1 q.2) = .ok
          { st with track_start := false, index_number := some q.1,
                    index_offset := some (pyInt ((sr : ℚ) * q.2)) } := by
        simp only [cueStep]
        rw [hn, hs]
        simp [if_pos hlt]
      obtain ⟨st2, heq, hf1, hf2, hf3, hf4, hf5, hf6, hf7, hf8, hf9⟩ :=
        ih rest
          { st with track_start := false, index_number := some q.1,
                    index_offset := some (pyInt ((sr : ℚ) * q.2)) }
          sr q h1 rfl rfl
      refine ⟨st2, ?_, hf1, hf2, hf3, hf4, hf5, hf6, hf7, ?_, ?_⟩
      · simp only [List.map_cons, List.cons_append, runCue, hstep]
        rw [if_neg (by simp)]
        exact heq
      · rw [List.foldl_cons]
        simp only [if_pos hlt]
        exact hf8
      · rw [List.foldl_cons]
        simp only [if_pos hlt]
        exact hf9
    · have hstep : cueStep probe dir st (.index q.1 q.2) = .ok
          { st with track_start := false } := by
        simp only [cueStep]
        rw [hn, hs]
        simp [if_neg hlt]
      obtain ⟨st2, heq, hf1, hf2, hf3, hf4, hf5, hf6, hf7, hf8, hf9⟩ :=
        ih rest { st with track_start := false } sr best h1 h2 h3
      refine ⟨st2, ?_, hf1, hf2, hf3, hf4, hf5, hf6, hf7, ?_, ?_⟩
      · simp only [List.map_cons, List.cons_append, runCue, hstep]
        rw [if_neg (by simp)]
        exact heq
      · rw [List.foldl_cons]
        simp only [if_neg hlt]
        exact hf8
      · rw [List.foldl_cons]
        simp only [if_neg hlt]
        exact hf9

/-- C3 amended: for a CUE sheet with one FILE (probing to a valid format),
one track and any non-empty run of INDEX commands, the resolved track's
offset_samples is int(sample_rate × t) — Python int() truncation toward
zero, not rounding — where (n, t) is the INDEX entry with the numerically
lowest index number (first seen on ties). -/
theorem c3_lowest_index_truncation (probe : String → ℤ × ℤ)
    (dir f title : String) (p : ℤ × ℚ) (idxs : List (ℤ × ℚ))
    (hcc : 1 ≤ (probe (joinPath dir f)).1)
    (hsr : 8000 ≤ (probe (joinPath dir f)).2) :
    _translate_from_cue probe dir
      (.file f :: .track 1 :: .title title ::
        ((p :: idxs).map (fun q => CueCmdVal.index q.1 q.2) ++ [.eof]))
      = .ok [⟨joinPath dir f, none, [],
          some (probe (joinPath dir f)).1, some (probe (joinPath dir f)).2,
          [⟨title, pyInt (((probe (joinPath dir f)).2 : ℚ) *
            (firstMinIndex p idxs).2)⟩]⟩] := by
  rcases hpp : probe (joinPath dir f) with ⟨cc, sr⟩
  rw [hpp] at hcc hsr
  simp only at hcc hsr
  have hbad : ¬(cc < 1 ∨ sr < 8000) := by
    push_neg
    constructor <;> omega
  have hstep1 : cueStep probe dir initCueState (.file f) = .ok
      ⟨none, none, some (joinPath dir f), some cc, some sr, false,
        none, none, [], []⟩ := by
    simp [cueStep, cueFlush, cueYield, initCueState, hpp,
      _get_audio_properties, hbad]
  have hstep2 : cueStep probe dir
      ⟨none, none, some (joinPath dir f), some cc, some sr, false,
        none, none, [], []⟩ (.track 1) = .ok
      ⟨none, none, some (joinPath dir f), some cc, some sr, true,
        none, none, [], []⟩ := by
    simp [cueStep, cueFlush]
  have hstep3 : cueStep probe dir
      ⟨none, none, some (joinPath dir f), some cc, some sr, true,
        none, none, [], []⟩ (.title title) = .ok
      ⟨none, none, some (joinPath dir f), some cc, some sr, true,
        none, some title, [], []⟩ := by
    simp [cueStep]
  have hstep4 : cueStep probe dir
      ⟨none, none, some (joinPath dir f), some cc, some sr, true,
        none, some title, [], []⟩ (.index p.1 p.2) = .ok
      ⟨some p.1, some (pyInt ((sr : ℚ) * p.2)), some (joinPath dir f),
        some cc, some sr, false, none, some title, [], []⟩ := by
    simp [cueStep]
  obtain ⟨st5, heq, hf1, hf2, hf3, hf4, hf5, hf6, hf7, hf8, hf9⟩ :=
    runCue_indexes probe dir idxs [.eof]
      ⟨some p.1, some (pyInt ((sr : ℚ) * p.2)), some (joinPath dir f),
        some cc, some sr, false, none, some title, [], []⟩
      sr p rfl rfl rfl
  have htt : st5.last_title_track = some title := hf2
  have hoff5 : st5.index_offset
      = some (pyInt ((sr : ℚ) * (firstMinIndex p idxs).2)) := hf9
  have hflush : cueFlush st5 = .ok
      { st5 with
        tracks := st5.tracks ++
          [⟨title, pyInt ((sr : ℚ) * (firstMinIndex p idxs).2)⟩],
        index_number := none } := by
    simp only [cueFlush, hf8, htt, hoff5]
  have hlfp : st5.last_file_path = some (joinPath dir f) := hf3
  have hstep5 : cueStep probe dir st5 .eof = .ok
      { st5 with
        tracks := [],
        index_number := none,
        out := st5.out ++ [⟨joinPath dir f, st5.last_title_file, [],
          st5.channel_count, st5.sample_rate,
          st5.tracks ++
            [⟨title, pyInt ((sr : ℚ) * (firstMinIndex p idxs).2)⟩]⟩] } := by
    simp only [cueStep, hflush, cueYield, hlfp]
    rw [if_neg (joinPath_ne_empty dir f)]
  rw [_translate_from_cue]
  simp only [List.map_cons, List.cons_append]
  rw [runCue, hstep1]
  simp only [reduceCtorEq, if_false]
  rw [runCue, hstep2]
  simp only [reduceCtorEq, if_false]
  rw [runCue, hstep3]
  simp only [reduceCtorEq, if_false]
  rw [runCue, hstep4]
  simp only [reduceCtorEq, if_false]
  rw [heq, runCue, hstep5]
  simp only [reduceIte]
  simp only [Except.map]
  rw [show st5.out = [] from hf7, show st5.tracks = [] from hf6,
    show st5.last_title_file = (none : Option String) from hf5,
    show st5.channel_count = some cc from hf4,
    show st5.sample_rate = some sr from hf1]
  simp

/-- Witness for c3_lowest_index_truncation: a 44100 Hz file, one track
with a single INDEX at one CD frame (1/75 s). -/
theorem c3_lowest_index_truncation_witness :
    _translate_from_cue (fun _ => ((2:ℤ), (44100:ℤ))) "d"
      (.file "a" :: .track 1 :: .title "T" ::
        (([((1:ℤ), (1:ℚ)/75)]).map (fun q => CueCmdVal.index q.1 q.2)
          ++ [.eof]))
      = .ok [⟨joinPath "d" "a", none, [], some 2, some 44100,
          [⟨"T", pyInt (((44100:ℤ) : ℚ) *
            (firstMinIndex ((1:ℤ), (1:ℚ)/75) []).2)⟩]⟩] :=
  c3_lowest_index_truncation (fun _ => ((2:ℤ), (44100:ℤ))) "d" "a" "T"
    ((1:ℤ), (1:ℚ)/75) [] (by norm_num) (by norm_num)
